import Mathlib

/-!
# Verification of the hybrid retrieval engine (`src/utils/search.py`)

Shallow embedding of the index builder and the hybrid search engine of the
`domain-agnostic-chatbot` repository.  Scores are modeled as exact rationals
(`ℚ`); Python dictionaries holding a result are modeled by the `SearchResult`
structure; the external collaborators (the FAISS similarity index, the OpenAI
embedding client and the `rank_bm25` scoring method) are modeled as function
fields, so every theorem about the engine quantifies over their behaviour.
Python's stable `list.sort` is modeled by `List.insertionSort` (stable for a
total preorder) and `np.argsort` by a stable ascending sort of the index list.
-/

namespace SearchPy

/-- Python `str.lower()`, modeled characterwise (ASCII case folding). -/
def pyToLower (s : String) : String := ⟨s.data.map Char.toLower⟩

/-- Python substring test `sub in hay` on character lists: `sub` occurs
contiguously in `hay` (the empty string occurs in everything). -/
def hasSub (hay sub : List Char) : Bool :=
  match hay with
  | [] => sub.isEmpty
  | _ :: rest => sub.isPrefixOf hay || hasSub rest sub

/-- Python `sub in hay` for strings. -/
def pyContains (hay sub : String) : Bool := hasSub hay.data sub.data

/-- Python `str.split()` with no argument: split on whitespace runs and drop
empty pieces.  First argument: remaining characters; second: the current word
accumulated in reverse. -/
def pyWords : List Char → List Char → List (List Char)
  | [], acc => if acc.isEmpty then [] else [acc.reverse]
  | c :: cs, acc =>
    if c.isWhitespace then
      if acc.isEmpty then pyWords cs [] else acc.reverse :: pyWords cs []
    else pyWords cs (c :: acc)

/-- Python `text.lower().split()`, the tokenizer used both when building the
BM25 index (`build_bm25_index`) and for queries (`_bm25_search`). -/
def pyTokenize (s : String) : List String :=
  (pyWords (pyToLower s).data []).map (fun w => ⟨w⟩)

/-- One search hit, modeling the Python result dict built by `_faiss_search` /
`_bm25_search`.  The `metadata` dict is consulted downstream only through its
`filename` key, which is what the `filename` field models.  The
`normalized_score` and `combined_score` keys do not exist until fusion sets
them; they default to `0`. -/
structure SearchResult where
  content : String
  score : ℚ
  source : String
  rank : Nat
  filename : String
  normalized_score : ℚ := 0
  combined_score : ℚ := 0
deriving DecidableEq

/-- The FAISS index object (external C library): all the engine uses it for is
`index.search(query_embedding, top_k)`, returning `(score, idx)` pairs.  The
query-embedding generation and L2 normalization preceding the call are also
external, so the whole chain is collapsed into one function of the query. -/
structure FaissIndex where
  search : String → Nat → List (ℚ × Nat) := fun _ _ => []

/-- The `rank_bm25.BM25Okapi` object: the tokenized corpus it was built from,
plus its `get_scores` method (an external numeric formula, modeled as an
arbitrary function assigning one score per chunk). -/
structure BM25Okapi where
  corpus : List (List String)
  get_scores : List String → List ℚ := fun _ => []

/-- Models `rank_bm25.BM25Okapi.__init__`, which computes
`avgdl = num_doc / corpus_size` and hence raises `ZeroDivisionError` on an
empty corpus; the failure is modeled as `none`. -/
def BM25Okapi_init (corpus : List (List String)) : Option BM25Okapi :=
  if corpus.isEmpty then none else some { corpus := corpus }

/-- The artifact set written by `build_faiss_index` and read by
`_load_faiss_index`: the `index.faiss` file (the similarity structure, modeled
by `FaissIndex`) plus the `index.pkl` companion holding the parallel chunk and
metadata arrays (metadata modeled by its `filename` entries). -/
structure FaissArtifact where
  index : FaissIndex := {}
  chunks : List String
  filenames : List String := []

/-- The single pickle written by `build_bm25_index` and read by
`_load_bm25_index`: the tuple `(bm25, chunks, metadata)`. -/
structure Bm25Artifact where
  bm25 : BM25Okapi := { corpus := [] }
  chunks : List String
  filenames : List String := []

/-- `SearchIndexBuilder`: its only state is the lazily created
`EmbeddingGenerator`, modeled by the embedding collaborator itself — `none`
when the OpenAI client could not be initialized, otherwise the external
per-batch `embeddings.create` call. -/
structure SearchIndexBuilder where
  embedding_client : Option (List String → List (List ℚ)) := none

/-- Python slicing loop `for i in range(0, len(texts), batch_size)`: the list
of consecutive batches `texts[i:i+batch_size]`.  (For `batch_size = 0` the
Python loop would not be reached with a positive step; the definition recurses
structurally on the remaining suffix.) -/
def toBatches (batch_size : Nat) : List α → List (List α)
  | [] => []
  | x :: xs => (x :: xs).take batch_size :: toBatches batch_size (xs.drop (batch_size - 1))
termination_by l => l.length
decreasing_by
  simp only [List.length_cons]
  exact Nat.lt_succ_of_le (List.length_drop .. ▸ Nat.sub_le ..)

/-- `EmbeddingGenerator.generate_embeddings`: returns `[]` when no client is
available, otherwise concatenates the per-batch results of the external
`embeddings.create` call (any provider exception also yields `[]`, which the
`none` client case covers as well). -/
def generate_embeddings (client : Option (List String → List (List ℚ)))
    (texts : List String) (batch_size : Nat := 100) : List (List ℚ) :=
  match client with
  | none => []
  | some create => (toBatches batch_size texts).flatMap create

/-- `SearchIndexBuilder.build_faiss_index`: generate one embedding per chunk;
if nothing was produced (`if not embeddings`) fail before any filesystem
write; otherwise write the `index.faiss` + `index.pkl` artifact set.  The
numpy/FAISS construction steps on the success path are external and modeled as
succeeding; the written similarity structure is left as the default
`FaissIndex`. -/
def build_faiss_index (b : SearchIndexBuilder) (chunks : List String)
    (metadata : List String) : Bool × Option FaissArtifact :=
  let embeddings := generate_embeddings b.embedding_client chunks
  if embeddings.isEmpty then (false, none)
  else (true, some { chunks := chunks, filenames := metadata })

/-- `SearchIndexBuilder.build_bm25_index`: tokenize every chunk, construct the
`BM25Okapi` object, then write the pickle.  A construction exception (in
particular the `ZeroDivisionError` on an empty corpus) is caught and turns
into a `False` return before the output file is opened. -/
def build_bm25_index (chunks : List String) (metadata : List String) :
    Bool × Option Bm25Artifact :=
  let tokenized_chunks := chunks.map pyTokenize
  match BM25Okapi_init tokenized_chunks with
  | none => (false, none)
  | some bm25 => (true, some { bm25 := bm25, chunks := chunks, filenames := metadata })

/-- `HybridSearchEngine` state: the two index objects (`none` until loaded)
and the parallel chunk/metadata arrays.  `query_embedding_size` models the
`.size` of the query embedding produced by the external
`EmbeddingGenerator.generate_single_embedding` (`0` models the empty-array
failure result). -/
structure HybridSearchEngine where
  faiss_index : Option FaissIndex := none
  faiss_chunks : List String := []
  faiss_metadata : List String := []
  bm25_index : Option BM25Okapi := none
  bm25_chunks : List String := []
  bm25_metadata : List String := []
  query_embedding_size : String → Nat := fun _ => 0

/-- `HybridSearchEngine._load_faiss_index`: `none` models missing files or a
failed deserialization (both return `False` leaving the engine unchanged);
otherwise the index and the parallel arrays are installed. -/
def load_faiss_index (e : HybridSearchEngine) (art : Option FaissArtifact) :
    Bool × HybridSearchEngine :=
  match art with
  | none => (false, e)
  | some a => (true, { e with faiss_index := some a.index, faiss_chunks := a.chunks,
                              faiss_metadata := a.filenames })

/-- `HybridSearchEngine._load_bm25_index`: unpickle the
`(bm25, chunks, metadata)` tuple. -/
def load_bm25_index (e : HybridSearchEngine) (art : Option Bm25Artifact) :
    Bool × HybridSearchEngine :=
  match art with
  | none => (false, e)
  | some a => (true, { e with bm25_index := some a.bm25, bm25_chunks := a.chunks,
                              bm25_metadata := a.filenames })

/-- `HybridSearchEngine.load_indexes`: load the FAISS artifact, then the BM25
artifact, failing as soon as either loader fails.  (The source performs no
comparison between the two chunk counts.) -/
def load_indexes (e : HybridSearchEngine) (faiss_art : Option FaissArtifact)
    (bm25_art : Option Bm25Artifact) : Bool × HybridSearchEngine :=
  match load_faiss_index e faiss_art with
  | (false, e1) => (false, e1)
  | (true, e1) =>
    match load_bm25_index e1 bm25_art with
    | (false, e2) => (false, e2)
    | (true, e2) => (true, e2)

/-- `HybridSearchEngine.get_stats`: `(faiss_chunks, bm25_chunks,
indexes_loaded)`. -/
def get_stats (e : HybridSearchEngine) : Nat × Nat × Bool :=
  (e.faiss_chunks.length, e.bm25_chunks.length,
   e.faiss_index.isSome && e.bm25_index.isSome)

/-- `HybridSearchEngine._faiss_search`: empty on a zero-size query embedding,
otherwise one result dict per returned `(score, idx)` pair whose index is in
range of the chunk array (`rank` is the position in the raw pair list). -/
def faiss_search (e : HybridSearchEngine) (query : String) (top_k : Nat) :
    List SearchResult :=
  match e.faiss_index with
  | none => []
  | some idx =>
    if e.query_embedding_size query = 0 then []
    else
      (idx.search query top_k).enum.filterMap fun p =>
        if p.2.2 < e.faiss_chunks.length then
          some { content := e.faiss_chunks.getD p.2.2 ""
                 score := p.2.1
                 source := "faiss"
                 rank := p.1
                 filename := e.faiss_metadata.getD p.2.2 "" }
        else none

/-- The index order used by `_bm25_search`: `np.argsort(scores)[::-1]`,
modeled as a stable ascending argsort of the positions, reversed. -/
def argsortDesc (scores : List ℚ) : List Nat :=
  (List.insertionSort (fun i j => scores.getD i 0 ≤ scores.getD j 0)
    (List.range scores.length)).reverse

/-- The result dict `_bm25_search` appends for enumerate position `i` and
chunk index `idx`. -/
def mkBm25Result (e : HybridSearchEngine) (scores : List ℚ) (i idx : Nat) :
    SearchResult :=
  { content := e.bm25_chunks.getD idx ""
    score := scores.getD idx 0
    source := "bm25"
    rank := i
    filename := e.bm25_metadata.getD idx "" }

/-- `HybridSearchEngine._bm25_search`: tokenize the query, score every chunk,
walk the `top_k` highest-scoring indices in descending-score order and keep
only strictly positive scores. -/
def bm25_search (e : HybridSearchEngine) (query : String) (top_k : Nat) :
    List SearchResult :=
  match e.bm25_index with
  | none => []
  | some bm25 =>
    let query_tokens := pyTokenize query
    let scores := bm25.get_scores query_tokens
    ((argsortDesc scores).take top_k).enum.filterMap fun p =>
      if 0 < scores.getD p.2 0 then some (mkBm25Result e scores p.1 p.2) else none

/-- Weight factor for the FAISS contribution in `_combine_results`. -/
def faiss_weight : ℚ := 0.6

/-- Weight factor for the BM25 contribution in `_combine_results`. -/
def bm25_weight : ℚ := 0.4

/-- `max(r['score'] for r in results)` over a nonempty list (0 for `[]`,
where the source never evaluates it). -/
def maxRawScore : List SearchResult → ℚ
  | [] => 0
  | r :: rest => rest.foldl (fun m x => max m x.score) r.score

/-- The normalization pass of `_combine_results`: within one algorithm's
result set divide every raw score by the set's maximum raw score (all
normalized scores are 0 when that maximum is not positive); skipped for an
empty set. -/
def normalizeResults (results : List SearchResult) : List SearchResult :=
  match results with
  | [] => []
  | _ =>
    let m := maxRawScore results
    results.map fun r =>
      { r with normalized_score := if 0 < m then r.score / m else 0 }

/-- The FAISS pass of `_combine_results`: append each result whose content was
not seen yet, with `combined_score = normalized_score * faiss_weight`
(`seen_content` is exactly the set of contents already in the accumulator). -/
def addFaissResult (acc : List SearchResult) (r : SearchResult) : List SearchResult :=
  if r.content ∈ acc.map SearchResult.content then acc
  else acc ++ [{ r with combined_score := r.normalized_score * faiss_weight }]

/-- The boost branch of the BM25 pass: add `delta` to the `combined_score` of
the first accumulated result with content `c`. -/
def boostFirst (c : String) (delta : ℚ) : List SearchResult → List SearchResult
  | [] => []
  | x :: xs =>
    if x.content = c then { x with combined_score := x.combined_score + delta } :: xs
    else x :: boostFirst c delta xs

/-- The BM25 pass of `_combine_results`: boost an already-seen content,
otherwise append with `combined_score = normalized_score * bm25_weight`. -/
def addBm25Result (acc : List SearchResult) (r : SearchResult) : List SearchResult :=
  if r.content ∈ acc.map SearchResult.content then
    boostFirst r.content (r.normalized_score * bm25_weight) acc
  else acc ++ [{ r with combined_score := r.normalized_score * bm25_weight }]

/-- The fused (still unsorted) list built by `_combine_results` before the
final sort and truncation. -/
def combineUnsorted (faiss_results bm25_results : List SearchResult) :
    List SearchResult :=
  ((normalizeResults bm25_results).foldl addBm25Result
    ((normalizeResults faiss_results).foldl addFaissResult []))

/-- Python `combined.sort(key=lambda x: x['combined_score'], reverse=True)`:
stable descending sort by `combined_score`. -/
def sortByCombinedDesc (l : List SearchResult) : List SearchResult :=
  List.insertionSort (fun a b => b.combined_score ≤ a.combined_score) l

/-- `HybridSearchEngine._combine_results`. -/
def combine_results (faiss_results bm25_results : List SearchResult)
    (top_k : Nat) : List SearchResult :=
  (sortByCombinedDesc (combineUnsorted faiss_results bm25_results)).take top_k

/-- The categorization loop of `_balance_by_sources`: the first required
source whose (lowercased) identifier occurs in the result's lowercased
filename or content; `none` when no source matches. -/
def categorize (required_sources : List String) (r : SearchResult) :
    Option String :=
  required_sources.find? fun s =>
    pyContains (pyToLower r.filename) (pyToLower s) ||
    pyContains (pyToLower r.content) (pyToLower s)

/-- `source_results[s]`: the sub-list of results categorized under `s`, in
input order. -/
def bucketFor (required_sources : List String) (results : List SearchResult)
    (s : String) : List SearchResult :=
  results.filter fun r => decide (categorize required_sources r = some s)

/-- `other_results`: the results no required source matched, in input order. -/
def otherResults (required_sources : List String) (results : List SearchResult) :
    List SearchResult :=
  results.filter fun r => decide (categorize required_sources r = none)

/-- `HybridSearchEngine._balance_by_sources`: reserve
`max(1, top_k // len(required_sources))` slots per source filled with that
source's first (highest-scoring) bucket entries, then fill any remaining
slots from the not-yet-selected results of all buckets plus the unclassified
ones, sorted descending by `combined_score`; finally truncate to `top_k`. -/
def balance_by_sources (results : List SearchResult)
    (required_sources : List String) (top_k : Nat) : List SearchResult :=
  let max_per_source := max 1 (top_k / required_sources.length)
  let balanced := required_sources.flatMap fun s =>
    (bucketFor required_sources results s).take max_per_source
  let remaining_slots := top_k - balanced.length
  let balanced :=
    if 0 < remaining_slots then
      balanced ++ (sortByCombinedDesc
        ((required_sources.flatMap fun s =>
            (bucketFor required_sources results s).drop max_per_source)
          ++ otherResults required_sources results)).take remaining_slots
    else balanced
  balanced.take top_k

/-- `HybridSearchEngine.hybrid_search`: empty when either index is missing;
otherwise fetch `2 * top_k` candidates from each algorithm, fuse them, and
either truncate to `top_k` or (when a nonempty required-source list is given)
rebalance. -/
def hybrid_search (e : HybridSearchEngine) (query : String) (top_k : Nat)
    (required_sources : Option (List String) := none) : List SearchResult :=
  if e.faiss_index.isNone || e.bm25_index.isNone then []
  else
    let faiss_results := faiss_search e query (top_k * 2)
    let bm25_results := bm25_search e query (top_k * 2)
    let combined_results := combine_results faiss_results bm25_results (top_k * 2)
    match required_sources with
    | some rs => if rs.isEmpty then combined_results.take top_k
                 else balance_by_sources combined_results rs top_k
    | none => combined_results.take top_k

/-! ## Concrete instances used by counterexamples and witnesses

External collaborators are instantiated with constant functions, so the
engine behaviour below is fully determined by `search.py` logic. -/

/-- A FAISS index returning score 2 for chunk 0 and score 1 for chunk 1. -/
def exFaissIndex : FaissIndex := { search := fun _ _ => [(2, 0), (1, 1)] }

/-- A BM25 object whose scoring method gives every chunk score 0. -/
def exBm25Zero : BM25Okapi := { corpus := [["beta"], ["alpha"]], get_scores := fun _ => [0, 0] }

/-- Engine with two loaded chunks, one mentioning "beta" (vector score 2) and
one mentioning "alpha" (vector score 1); the lexical side scores nothing. -/
def engineAB : HybridSearchEngine :=
  { faiss_index := some exFaissIndex
    faiss_chunks := ["beta x", "alpha y"]
    faiss_metadata := ["f1", "f2"]
    bm25_index := some exBm25Zero
    bm25_chunks := ["beta x", "alpha y"]
    bm25_metadata := ["f1", "f2"]
    query_embedding_size := fun _ => 1536 }

/-- The fused result `engineAB` produces for its "beta" chunk. -/
def recBeta : SearchResult :=
  { content := "beta x", score := 2, source := "faiss", rank := 0,
    filename := "f1", normalized_score := 1, combined_score := 3/5 }

/-- The fused result `engineAB` produces for its "alpha" chunk. -/
def recAlpha : SearchResult :=
  { content := "alpha y", score := 1, source := "faiss", rank := 1,
    filename := "f2", normalized_score := 1/2, combined_score := 3/10 }

/-- A FAISS index returning a single hit for chunk 0 with score 1. -/
def exFaissOne : FaissIndex := { search := fun _ _ => [(1, 0)] }

/-- A BM25 object scoring its single chunk 0. -/
def exBm25Zero1 : BM25Okapi := { corpus := [["alpha"]], get_scores := fun _ => [0] }

/-- Engine with one loaded chunk mentioning "alpha". -/
def engineDup : HybridSearchEngine :=
  { faiss_index := some exFaissOne
    faiss_chunks := ["alpha y"]
    faiss_metadata := ["f1"]
    bm25_index := some exBm25Zero1
    bm25_chunks := ["alpha y"]
    bm25_metadata := ["f1"]
    query_embedding_size := fun _ => 1536 }

/-- The fused result `engineDup` produces for its single chunk. -/
def recDup : SearchResult :=
  { content := "alpha y", score := 1, source := "faiss", rank := 0,
    filename := "f1", normalized_score := 1, combined_score := 3/5 }

/-- A BM25 object whose scoring method gives both chunks the same score 1. -/
def exBm25Ties : BM25Okapi := { corpus := [["chunk"], ["chunk"]], get_scores := fun _ => [1, 1] }

/-- Engine whose two lexical chunks tie on BM25 score. -/
def engineTies : HybridSearchEngine :=
  { bm25_index := some exBm25Ties
    bm25_chunks := ["chunk a", "chunk b"]
    bm25_metadata := ["f", "f"] }

/-- An input result used by the balancing counterexample. -/
def recIn : SearchResult :=
  { content := "alpha doc", score := 1, source := "faiss", rank := 0, filename := "a" }

/-- A raw vector result that attains its result-set maximum score. -/
def recF : SearchResult :=
  { content := "both doc", score := 2, source := "faiss", rank := 0, filename := "f" }

/-- A raw lexical result with the same content attaining its own maximum. -/
def recB6 : SearchResult :=
  { content := "both doc", score := 3, source := "bm25", rank := 0, filename := "f" }

/-- A FAISS index with a single hit (score 2, chunk 0). -/
def exFaissBoth : FaissIndex := { search := fun _ _ => [(2, 0)] }

/-- A BM25 object scoring its single chunk 3. -/
def exBm25Both : BM25Okapi := { corpus := [["both"]], get_scores := fun _ => [3] }

/-- Engine whose single chunk is found by both algorithms. -/
def engineBoth : HybridSearchEngine :=
  { faiss_index := some exFaissBoth
    faiss_chunks := ["both doc"]
    faiss_metadata := ["f"]
    bm25_index := some exBm25Both
    bm25_chunks := ["both doc"]
    bm25_metadata := ["f"]
    query_embedding_size := fun _ => 1536 }

/-- `l.find?` by content, the lookup pattern `_combine_results` uses when
boosting an existing entry. -/
def findContent (c : String) (l : List SearchResult) : Option SearchResult :=
  l.find? fun x => decide (x.content = c)

end SearchPy

namespace SearchPy

/-! ## Generic facts about the descending sort -/

theorem sortByCombinedDesc_sorted (l : List SearchResult) :
    (sortByCombinedDesc l).Pairwise
      (fun a b => b.combined_score ≤ a.combined_score) := by
  haveI : IsTotal SearchResult (fun a b => b.combined_score ≤ a.combined_score) :=
    ⟨fun a b => le_total b.combined_score a.combined_score⟩
  haveI : IsTrans SearchResult (fun a b => b.combined_score ≤ a.combined_score) :=
    ⟨fun a b c hab hbc => le_trans hbc hab⟩
  exact List.sorted_insertionSort _ l

theorem sortByCombinedDesc_perm (l : List SearchResult) :
    List.Perm (sortByCombinedDesc l) l :=
  List.perm_insertionSort _ l

theorem combine_results_sorted (fr br : List SearchResult) (k : Nat) :
    (combine_results fr br k).Pairwise
      (fun a b => b.combined_score ≤ a.combined_score) :=
  (sortByCombinedDesc_sorted (combineUnsorted fr br)).sublist (List.take_sublist _ _)

/-! ## C3: count bound -/

theorem balance_by_sources_length_le (results : List SearchResult)
    (rs : List String) (k : Nat) :
    (balance_by_sources results rs k).length ≤ k :=
  List.length_take_le _ _

theorem balance_by_sources_zero (results : List SearchResult) (rs : List String) :
    balance_by_sources results rs 0 = [] := by
  simp [balance_by_sources]

/-- C3: for every engine, query, `k` and optional required-source list, the
result list of `hybrid_search` has length at most `k`, and `k = 0` yields the
empty list (on the balancing path as well). -/
theorem hybrid_search_count_bound (e : HybridSearchEngine) (q : String)
    (k : Nat) (rs : Option (List String)) :
    (hybrid_search e q k rs).length ≤ k ∧ hybrid_search e q 0 rs = [] := by
  constructor
  · unfold hybrid_search
    split
    · simp
    · cases rs with
      | none => exact List.length_take_le _ _
      | some l =>
        simp only
        split
        · exact List.length_take_le _ _
        · exact balance_by_sources_length_le _ _ _
  · unfold hybrid_search
    split
    · rfl
    · cases rs with
      | none => simp
      | some l =>
        simp only
        split
        · simp
        · exact balance_by_sources_zero _ _

/-! ## C1: the loader performs no chunk-count comparison -/

/-- C1 counterexample: a vector artifact with 10 chunks and a lexical artifact
with 9 chunks still make `load_indexes` return success, and the engine is
marked loaded (`get_stats` reports `indexes_loaded = true`), contradicting the
claim that the mismatch is rejected. -/
theorem load_indexes_mismatch_counterexample :
    (load_indexes {} (some { chunks := List.replicate 10 "c" })
      (some { chunks := List.replicate 9 "c" })).1 = true ∧
    (List.replicate 10 "c").length = 10 ∧
    (List.replicate 9 "c").length = 9 ∧
    (get_stats (load_indexes {} (some { chunks := List.replicate 10 "c" })
      (some { chunks := List.replicate 9 "c" })).2).2.2 = true :=
  ⟨rfl, by simp, by simp, rfl⟩

/-- C1 (amended): `load_indexes` succeeds exactly when both artifacts load,
regardless of the chunk counts they report — the loader makes no chunk-count
comparison, so a 10-vs-9 mismatch is accepted. -/
theorem load_indexes_amended (e : HybridSearchEngine)
    (fa : Option FaissArtifact) (ba : Option Bm25Artifact) :
    (load_indexes e fa ba).1 = (fa.isSome && ba.isSome) := by
  cases fa <;> cases ba <;> rfl

/-! ## C9: empty chunk sequence fails both builders before any write -/

/-- C9: with an empty chunk list, `build_faiss_index` fails (no embeddings are
produced, whatever the embedding client) and `build_bm25_index` fails (the
`BM25Okapi` constructor rejects an empty corpus); neither writes an artifact. -/
theorem build_indexes_empty_chunks_fail (b : SearchIndexBuilder)
    (metadata : List String) :
    build_faiss_index b [] metadata = (false, none) ∧
    build_bm25_index [] metadata = (false, none) := by
  constructor
  · unfold build_faiss_index generate_embeddings
    cases hb : b.embedding_client with
    | none => rfl
    | some create => simp [toBatches]
  · rfl

end SearchPy

namespace SearchPy

/-! ## C2: ordering invariant (holds only off the balancing path) -/

/-- C2 (amended): when no required sources are supplied (either `none` or an
empty list, the cases in which the source reaches the plain truncation path),
`hybrid_search` results are sorted non-increasing by `combined_score`; the
source-balancing rerank path does not restore this ordering. -/
theorem hybrid_search_sorted_unbalanced (e : HybridSearchEngine) (q : String)
    (k : Nat) :
    (hybrid_search e q k none).Pairwise
      (fun a b => b.combined_score ≤ a.combined_score) ∧
    (hybrid_search e q k (some [])).Pairwise
      (fun a b => b.combined_score ≤ a.combined_score) := by
  constructor <;> unfold hybrid_search
  · split
    · exact List.Pairwise.nil
    · exact (combine_results_sorted _ _ _).sublist (List.take_sublist _ _)
  · split
    · exact List.Pairwise.nil
    · simp only [List.isEmpty_nil, if_true]
      exact (combine_results_sorted _ _ _).sublist (List.take_sublist _ _)

/-! ## C8: only strictly positive lexical scores are returned -/

/-- C8: every result of the lexical search has a strictly positive raw score,
and for any chunk index whose BM25 score is zero the result entry that
`_bm25_search` would build from it never appears in the returned list — a
chunk sharing no terms with the query is never returned. -/
theorem bm25_search_positive (e : HybridSearchEngine) (q : String) (k : Nat) :
    (∀ r ∈ bm25_search e q k, 0 < r.score) ∧
    (∀ bm25, e.bm25_index = some bm25 →
      ∀ i j : Nat, (bm25.get_scores (pyTokenize q)).getD j 0 = 0 →
        mkBm25Result e (bm25.get_scores (pyTokenize q)) i j ∉ bm25_search e q k) := by
  have hpos : ∀ r ∈ bm25_search e q k, 0 < r.score := by
    intro r hr
    unfold bm25_search at hr
    split at hr
    · simp at hr
    · rw [List.mem_filterMap] at hr
      obtain ⟨p, _, hf⟩ := hr
      split at hf
      · rename_i hcond
        cases hf
        simpa [mkBm25Result, List.getD] using hcond
      · cases hf
  refine ⟨hpos, ?_⟩
  intro bm25 hbm i j hz hmem
  have h0 := hpos _ hmem
  rw [show (mkBm25Result e (bm25.get_scores (pyTokenize q)) i j).score
      = (bm25.get_scores (pyTokenize q)).getD j 0 from rfl, hz] at h0
  exact lt_irrefl 0 h0

end SearchPy

namespace SearchPy

/-! ## Content bookkeeping of the fusion fold -/

theorem boostFirst_map_content (c : String) (d : ℚ) (l : List SearchResult) :
    (boostFirst c d l).map SearchResult.content = l.map SearchResult.content := by
  induction l with
  | nil => rfl
  | cons x xs ih =>
    unfold boostFirst
    split
    · rfl
    · simpa using ih

theorem addFaissResult_nodup {acc : List SearchResult} (r : SearchResult)
    (h : (acc.map SearchResult.content).Nodup) :
    ((addFaissResult acc r).map SearchResult.content).Nodup := by
  unfold addFaissResult
  split
  · exact h
  · rename_i hmem
    rw [List.map_append, List.nodup_append]
    refine ⟨h, by simp, ?_⟩
    intro a ha hb
    simp only [List.map_cons, List.map_nil, List.mem_singleton] at hb
    exact hmem (by simpa [hb] using ha)

theorem addBm25Result_nodup {acc : List SearchResult} (r : SearchResult)
    (h : (acc.map SearchResult.content).Nodup) :
    ((addBm25Result acc r).map SearchResult.content).Nodup := by
  unfold addBm25Result
  split
  · rwa [boostFirst_map_content]
  · rename_i hmem
    rw [List.map_append, List.nodup_append]
    refine ⟨h, by simp, ?_⟩
    intro a ha hb
    simp only [List.map_cons, List.map_nil, List.mem_singleton] at hb
    exact hmem (by simpa [hb] using ha)

theorem foldl_addFaiss_nodup (l : List SearchResult) :
    ∀ acc, (acc.map SearchResult.content).Nodup →
      ((List.foldl addFaissResult acc l).map SearchResult.content).Nodup := by
  induction l with
  | nil => exact fun acc h => h
  | cons x xs ih =>
    intro acc h
    rw [List.foldl_cons]
    exact ih _ (addFaissResult_nodup x h)

theorem foldl_addBm25_nodup (l : List SearchResult) :
    ∀ acc, (acc.map SearchResult.content).Nodup →
      ((List.foldl addBm25Result acc l).map SearchResult.content).Nodup := by
  induction l with
  | nil => exact fun acc h => h
  | cons x xs ih =>
    intro acc h
    rw [List.foldl_cons]
    exact ih _ (addBm25Result_nodup x h)

theorem combineUnsorted_nodup (fr br : List SearchResult) :
    ((combineUnsorted fr br).map SearchResult.content).Nodup := by
  unfold combineUnsorted
  exact foldl_addBm25_nodup _ _ (foldl_addFaiss_nodup _ _ (by simp))

theorem combine_results_nodup (fr br : List SearchResult) (k : Nat) :
    ((combine_results fr br k).map SearchResult.content).Nodup := by
  unfold combine_results
  have hperm := (sortByCombinedDesc_perm (combineUnsorted fr br)).map SearchResult.content
  have h1 := hperm.nodup_iff.mpr (combineUnsorted_nodup fr br)
  exact h1.sublist ((List.take_sublist _ _).map _)

theorem nodup_contents_of_subperm {l₁ l₂ : List SearchResult}
    (h : List.Subperm l₁ l₂) (hn : (l₂.map SearchResult.content).Nodup) :
    (l₁.map SearchResult.content).Nodup := by
  obtain ⟨l, hp, hs⟩ := h
  exact ((hp.map _).nodup_iff).mp (hn.sublist (hs.map _))

/-! ## Locating the merged entry of a content -/

theorem findContent_cons_self {c : String} {x : SearchResult}
    (hx : x.content = c) (xs : List SearchResult) :
    findContent c (x :: xs) = some x := by
  unfold findContent
  rw [List.find?_cons_of_pos]
  simp [hx]

theorem findContent_cons_ne {c : String} {x : SearchResult}
    (hx : x.content ≠ c) (xs : List SearchResult) :
    findContent c (x :: xs) = findContent c xs := by
  unfold findContent
  rw [List.find?_cons_of_neg]
  simp [hx]

theorem findContent_boostFirst_ne {c c' : String} (hcc : c ≠ c') (d : ℚ)
    (l : List SearchResult) :
    findContent c (boostFirst c' d l) = findContent c l := by
  induction l with
  | nil => rfl
  | cons x xs ih =>
    unfold boostFirst
    split
    · rename_i hx
      rw [findContent_cons_ne (by simpa [hx] using fun h => hcc h.symm),
        findContent_cons_ne (by rw [hx]; exact fun h => hcc h.symm)]
    · by_cases hxc : x.content = c
      · rw [findContent_cons_self hxc, findContent_cons_self hxc]
      · rw [findContent_cons_ne hxc, findContent_cons_ne hxc, ih]

theorem findContent_boostFirst_self {c : String} (d : ℚ) {l : List SearchResult}
    {x : SearchResult} (h : findContent c l = some x) :
    findContent c (boostFirst c d l) =
      some { x with combined_score := x.combined_score + d } := by
  induction l with
  | nil => simp [findContent] at h
  | cons y ys ih =>
    unfold boostFirst
    split
    · rename_i hy
      rw [findContent_cons_self hy] at h
      cases h
      exact findContent_cons_self (by simpa using hy) _
    · rename_i hy
      rw [findContent_cons_ne hy] at h
      rw [findContent_cons_ne hy]
      exact ih h

theorem content_mem_of_findContent {c : String} {l : List SearchResult}
    {x : SearchResult} (h : findContent c l = some x) :
    c ∈ l.map SearchResult.content := by
  unfold findContent at h
  have hm := List.mem_of_find?_eq_some h
  have hp := List.find?_some h
  simp only [decide_eq_true_eq] at hp
  exact hp ▸ List.mem_map_of_mem _ hm

theorem findContent_append_single (c : String) (acc : List SearchResult)
    {y : SearchResult} (hy : y.content ≠ c) :
    findContent c (acc ++ [y]) = findContent c acc := by
  induction acc with
  | nil =>
    rw [List.nil_append, findContent_cons_ne hy]
  | cons a as ih =>
    by_cases hac : a.content = c
    · rw [List.cons_append, findContent_cons_self hac, findContent_cons_self hac]
    · rw [List.cons_append, findContent_cons_ne hac, findContent_cons_ne hac, ih]

theorem findContent_addBm25_ne {c : String} {acc : List SearchResult}
    (r : SearchResult) (hr : r.content ≠ c) :
    findContent c (addBm25Result acc r) = findContent c acc := by
  unfold addBm25Result
  split
  · exact findContent_boostFirst_ne (fun h => hr h.symm) _ _
  · exact findContent_append_single c acc (by simpa using hr)

theorem findContent_addBm25_self {c : String} {acc : List SearchResult}
    {x : SearchResult} (r : SearchResult) (hr : r.content = c)
    (h : findContent c acc = some x) :
    findContent c (addBm25Result acc r) =
      some { x with combined_score :=
        x.combined_score + r.normalized_score * bm25_weight } := by
  unfold addBm25Result
  split
  · rw [hr]
    exact findContent_boostFirst_self _ h
  · rename_i hmem
    exact absurd (by rw [hr]; exact content_mem_of_findContent h) hmem

theorem findContent_foldl_addBm25_ne {c : String} (l : List SearchResult)
    (hl : ∀ y ∈ l, y.content ≠ c) :
    ∀ acc, findContent c (List.foldl addBm25Result acc l) = findContent c acc := by
  induction l with
  | nil => intro acc; rfl
  | cons y ys ih =>
    intro acc
    rw [List.foldl_cons, ih (fun z hz => hl z (List.mem_cons_of_mem _ hz)),
      findContent_addBm25_ne y (hl y (List.mem_cons_self _ _))]

theorem foldl_addFaiss_eq_map (l : List SearchResult) :
    ∀ acc, ((acc ++ l).map SearchResult.content).Nodup →
      List.foldl addFaissResult acc l =
        acc ++ l.map (fun r =>
          { r with combined_score := r.normalized_score * faiss_weight }) := by
  induction l with
  | nil => intro acc _; simp
  | cons r t ih =>
    intro acc h
    have hnotmem : r.content ∉ acc.map SearchResult.content := by
      rw [List.map_append, List.nodup_append] at h
      intro hmem
      exact h.2.2 hmem (by simp)
    rw [List.foldl_cons,
      show addFaissResult acc r = acc ++
        [{ r with combined_score := r.normalized_score * faiss_weight }] from by
          unfold addFaissResult; rw [if_neg hnotmem],
      ih _ (by simpa [List.append_assoc] using h)]
    simp

theorem normalizeResults_map_content (l : List SearchResult) :
    (normalizeResults l).map SearchResult.content = l.map SearchResult.content := by
  unfold normalizeResults
  split
  · rfl
  · simp [List.map_map, Function.comp]

theorem findContent_of_mem_nodup {l : List SearchResult} {x : SearchResult}
    {c : String} (hn : (l.map SearchResult.content).Nodup) (hx : x ∈ l)
    (hc : x.content = c) : findContent c l = some x := by
  induction l with
  | nil => cases hx
  | cons y ys ih =>
    have hn' : (∀ z ∈ ys, z.content ≠ y.content) ∧
        (ys.map SearchResult.content).Nodup := by simpa using hn
    rcases List.mem_cons.mp hx with rfl | hmem
    · exact findContent_cons_self hc _
    · by_cases hyc : y.content = c
      · exact absurd (hc.trans hyc.symm) (hn'.1 x hmem)
      · rw [findContent_cons_ne hyc]
        exact ih hn'.2 hmem

theorem findContent_map_update (c : String) (l : List SearchResult)
    (f : SearchResult → SearchResult) (hf : ∀ x, (f x).content = x.content) :
    findContent c (l.map f) = (findContent c l).map f := by
  induction l with
  | nil => rfl
  | cons y ys ih =>
    by_cases hyc : y.content = c
    · rw [List.map_cons, findContent_cons_self (by rw [hf]; exact hyc),
        findContent_cons_self hyc]
      rfl
    · rw [List.map_cons, findContent_cons_ne (by rw [hf]; exact hyc),
        findContent_cons_ne hyc, ih]

/-- The merged entry of a content present in both normalized result sets:
its `combined_score` is the weighted sum of the two normalized scores. -/
theorem combineUnsorted_merge_sum (fr br : List SearchResult)
    (rf rb : SearchResult)
    (hf : (fr.map SearchResult.content).Nodup)
    (hb : (br.map SearchResult.content).Nodup)
    (hrf : rf ∈ normalizeResults fr) (hrb : rb ∈ normalizeResults br)
    (hcc : rb.content = rf.content) :
    ∃ r ∈ combineUnsorted fr br, r.content = rf.content ∧
      r.combined_score =
        rf.normalized_score * faiss_weight + rb.normalized_score * bm25_weight := by
  have hfn : ((normalizeResults fr).map SearchResult.content).Nodup := by
    rw [normalizeResults_map_content]; exact hf
  have hbn : ((normalizeResults br).map SearchResult.content).Nodup := by
    rw [normalizeResults_map_content]; exact hb
  have hphase1 : List.foldl addFaissResult [] (normalizeResults fr) =
      (normalizeResults fr).map (fun r =>
        { r with combined_score := r.normalized_score * faiss_weight }) := by
    simpa using foldl_addFaiss_eq_map (normalizeResults fr) [] (by simpa using hfn)
  have hfind1 : findContent rf.content (List.foldl addFaissResult [] (normalizeResults fr)) =
      some { rf with combined_score := rf.normalized_score * faiss_weight } := by
    rw [hphase1, findContent_map_update rf.content (normalizeResults fr)
        (fun r => { r with combined_score := r.normalized_score * faiss_weight })
        (fun x => rfl),
      findContent_of_mem_nodup hfn hrf rfl]
    rfl
  obtain ⟨l₁, l₂, hsplit⟩ := List.append_of_mem hrb
  have hnsplit : ((l₁ ++ rb :: l₂).map SearchResult.content).Nodup := hsplit ▸ hbn
  rw [List.map_append, List.nodup_append] at hnsplit
  have h₁ : ∀ y ∈ l₁, y.content ≠ rf.content := by
    intro y hy hyc
    exact hnsplit.2.2
      (show rf.content ∈ List.map SearchResult.content l₁ from by
        rw [← hyc]; exact List.mem_map_of_mem _ hy)
      (show rf.content ∈ List.map SearchResult.content (rb :: l₂) from by
        rw [← hcc]; simp)
  have h₂ : ∀ y ∈ l₂, y.content ≠ rf.content := by
    have h2' : (∀ z ∈ l₂, z.content ≠ rb.content) ∧
        (l₂.map SearchResult.content).Nodup := by simpa using hnsplit.2.1
    intro y hy hyc
    exact h2'.1 y hy (hyc.trans hcc.symm)
  have hfinal : findContent rf.content (combineUnsorted fr br) =
      some { rf with combined_score :=
        rf.normalized_score * faiss_weight + rb.normalized_score * bm25_weight } := by
    unfold combineUnsorted
    rw [show (normalizeResults br).foldl addBm25Result
          (List.foldl addFaissResult [] (normalizeResults fr)) =
        List.foldl addBm25Result
          (List.foldl addFaissResult [] (normalizeResults fr))
          (l₁ ++ rb :: l₂) from by rw [← hsplit],
      List.foldl_append, List.foldl_cons,
      findContent_foldl_addBm25_ne l₂ h₂,
      findContent_addBm25_self rb hcc
        (by rw [findContent_foldl_addBm25_ne l₁ h₁]; exact hfind1)]
  unfold findContent at hfinal
  exact ⟨_, List.mem_of_find?_eq_some hfinal, rfl, rfl⟩

end SearchPy

namespace SearchPy

/-! ## The balancing rerank only rearranges its input (for duplicate-free
required-source lists) -/

theorem bucketFor_cons_none {rs : List String} {r : SearchResult}
    (hcat : categorize rs r = none) (results : List SearchResult) (s : String) :
    bucketFor rs (r :: results) s = bucketFor rs results s := by
  simp [bucketFor, List.filter_cons, hcat]

theorem bucketFor_cons_some_self {rs : List String} {r : SearchResult}
    {s0 : String} (hcat : categorize rs r = some s0) (results : List SearchResult) :
    bucketFor rs (r :: results) s0 = r :: bucketFor rs results s0 := by
  simp [bucketFor, List.filter_cons, hcat]

theorem bucketFor_cons_some_ne {rs : List String} {r : SearchResult}
    {s0 s : String} (hcat : categorize rs r = some s0) (hne : s0 ≠ s)
    (results : List SearchResult) :
    bucketFor rs (r :: results) s = bucketFor rs results s := by
  simp [bucketFor, List.filter_cons, hcat, hne]

theorem otherResults_cons_none {rs : List String} {r : SearchResult}
    (hcat : categorize rs r = none) (results : List SearchResult) :
    otherResults rs (r :: results) = r :: otherResults rs results := by
  simp [otherResults, List.filter_cons, hcat]

theorem otherResults_cons_some {rs : List String} {r : SearchResult}
    {s0 : String} (hcat : categorize rs r = some s0) (results : List SearchResult) :
    otherResults rs (r :: results) = otherResults rs results := by
  simp [otherResults, List.filter_cons, hcat]

theorem flatMap_eq_nil_of (rs : List String) (f : String → List SearchResult)
    (hf : ∀ s, f s = []) : rs.flatMap f = [] := by
  induction rs with
  | nil => rfl
  | cons t ts ih => rw [List.flatMap_cons, hf t, List.nil_append, ih]

theorem flatMap_bucket_cons_not_mem {rs : List String} {r : SearchResult}
    {s0 : String} (hcat : categorize rs r = some s0)
    (results : List SearchResult) :
    ∀ L : List String, s0 ∉ L →
      (L.flatMap fun s => bucketFor rs (r :: results) s) =
        L.flatMap fun s => bucketFor rs results s := by
  intro L
  induction L with
  | nil => intro _; rfl
  | cons t ts ih =>
    intro hL
    rw [List.flatMap_cons, List.flatMap_cons,
      bucketFor_cons_some_ne hcat (fun h => hL (h ▸ List.mem_cons_self _ _)),
      ih (fun h => hL (List.mem_cons_of_mem _ h))]

theorem flatMap_bucket_cons_perm {rs : List String} {r : SearchResult}
    {s0 : String} (hcat : categorize rs r = some s0)
    (results : List SearchResult) :
    ∀ L : List String, L.Nodup → s0 ∈ L →
      List.Perm (L.flatMap fun s => bucketFor rs (r :: results) s)
        (r :: L.flatMap fun s => bucketFor rs results s) := by
  intro L
  induction L with
  | nil => intro _ h; cases h
  | cons t ts ih =>
    intro hnd hmem
    rw [List.flatMap_cons, List.flatMap_cons]
    by_cases ht : t = s0
    · subst ht
      rw [bucketFor_cons_some_self hcat,
        flatMap_bucket_cons_not_mem hcat results ts (List.nodup_cons.mp hnd).1]
      exact List.Perm.refl _
    · rw [bucketFor_cons_some_ne hcat (fun h => ht h.symm)]
      have hs0 : s0 ∈ ts := by
        rcases List.mem_cons.mp hmem with h | h
        · exact absurd h.symm ht
        · exact h
      exact ((ih (List.nodup_cons.mp hnd).2 hs0).append_left _).trans
        List.perm_middle

theorem buckets_other_perm (rs : List String) (hnd : rs.Nodup)
    (results : List SearchResult) :
    List.Perm ((rs.flatMap fun s => bucketFor rs results s) ++
      otherResults rs results) results := by
  induction results with
  | nil =>
    rw [flatMap_eq_nil_of rs (fun s => bucketFor rs [] s) (fun s => rfl)]
    exact List.Perm.refl _
  | cons r rest ih =>
    cases hcat : categorize rs r with
    | none =>
      have hb : ∀ s, bucketFor rs (r :: rest) s = bucketFor rs rest s :=
        fun s => bucketFor_cons_none hcat rest s
      simp only [hb, otherResults_cons_none hcat rest]
      exact List.perm_middle.trans (ih.cons r)
    | some s0 =>
      have hs0 : s0 ∈ rs := by
        have h' := hcat
        unfold categorize at h'
        exact List.mem_of_find?_eq_some h'
      rw [otherResults_cons_some hcat rest]
      exact ((flatMap_bucket_cons_perm hcat rest rs hnd hs0).append_right _).trans
        (ih.cons r)

theorem flatMap_take_drop_perm (rs : List String)
    (B : String → List SearchResult) (q : Nat) :
    List.Perm ((rs.flatMap fun s => (B s).take q) ++
      rs.flatMap fun s => (B s).drop q) (rs.flatMap B) := by
  induction rs with
  | nil => exact List.Perm.refl _
  | cons t ts ih =>
    rw [List.flatMap_cons, List.flatMap_cons, List.flatMap_cons]
    have h1 : List.Perm
        ((ts.flatMap fun s => (B s).take q) ++
          ((B t).drop q ++ ts.flatMap fun s => (B s).drop q))
        ((B t).drop q ++ ((ts.flatMap fun s => (B s).take q) ++
          ts.flatMap fun s => (B s).drop q)) := by
      rw [← List.append_assoc, ← List.append_assoc]
      exact List.perm_append_comm.append_right _
    rw [List.append_assoc]
    refine (h1.append_left ((B t).take q)).trans ?_
    rw [← List.append_assoc, List.take_append_drop]
    exact ih.append_left _

theorem balance_parts_perm (results : List SearchResult) (rs : List String)
    (hnd : rs.Nodup) (q : Nat) :
    List.Perm
      ((rs.flatMap fun s => (bucketFor rs results s).take q) ++
        ((rs.flatMap fun s => (bucketFor rs results s).drop q) ++
          otherResults rs results))
      results := by
  rw [← List.append_assoc]
  exact ((flatMap_take_drop_perm rs (fun s => bucketFor rs results s) q).append_right
    _).trans (buckets_other_perm rs hnd results)

/-- On a duplicate-free required-source list, the balancing rerank output is a
sub-permutation of its input: it never fabricates or duplicates a result. -/
theorem balance_subperm_aux (results : List SearchResult)
    (rs : List String) (hnd : rs.Nodup) (k : Nat) :
    List.Subperm (balance_by_sources results rs k) results := by
  unfold balance_by_sources
  refine List.Subperm.trans (List.Sublist.subperm (List.take_sublist _ _)) ?_
  have htot := balance_parts_perm results rs hnd (max 1 (k / rs.length))
  split
  · refine List.Subperm.trans
      ((List.subperm_append_left _).mpr
        (((List.take_sublist _ _).subperm).trans
          (sortByCombinedDesc_perm _).subperm)) ?_
    exact htot.subperm
  · exact (List.sublist_append_left _ _).subperm.trans htot.subperm

end SearchPy

namespace SearchPy

theorem normalizeResults_eq_map (l : List SearchResult) (h : l ≠ []) :
    normalizeResults l = l.map (fun r =>
      { r with normalized_score :=
          if 0 < maxRawScore l then r.score / maxRawScore l else 0 }) := by
  unfold normalizeResults
  split
  · exact absurd rfl h
  · rfl

/-! ## C6: fusion weight law -/

/-- C6: with the source's weights 0.6 and 0.4 (summing to 1), a chunk that
attains the (positive) maximum raw score of the vector result set and the
(positive) maximum raw score of the lexical result set is fused into an entry
whose `combined_score` is exactly 1. -/
theorem combine_results_weight_law (fr br : List SearchResult)
    (rf rb : SearchResult)
    (hf : (fr.map SearchResult.content).Nodup)
    (hb : (br.map SearchResult.content).Nodup)
    (hrf : rf ∈ fr) (hrb : rb ∈ br) (hcc : rb.content = rf.content)
    (hmaxf : rf.score = maxRawScore fr) (hposf : 0 < maxRawScore fr)
    (hmaxb : rb.score = maxRawScore br) (hposb : 0 < maxRawScore br) :
    ∃ r ∈ combineUnsorted fr br, r.content = rf.content ∧
      r.combined_score = 1 := by
  have hfne : fr ≠ [] := List.ne_nil_of_mem hrf
  have hbne : br ≠ [] := List.ne_nil_of_mem hrb
  have hrfm : ({ rf with
      normalized_score :=
        if 0 < maxRawScore fr then rf.score / maxRawScore fr else 0 } : SearchResult)
      ∈ normalizeResults fr := by
    rw [normalizeResults_eq_map fr hfne]
    exact List.mem_map_of_mem _ hrf
  have hrbm : ({ rb with
      normalized_score :=
        if 0 < maxRawScore br then rb.score / maxRawScore br else 0 } : SearchResult)
      ∈ normalizeResults br := by
    rw [normalizeResults_eq_map br hbne]
    exact List.mem_map_of_mem _ hrb
  obtain ⟨r, hrmem, hrc, hrs⟩ :=
    combineUnsorted_merge_sum fr br _ _ hf hb hrfm hrbm (by simpa using hcc)
  refine ⟨r, hrmem, by simpa using hrc, ?_⟩
  rw [hrs]
  show (if 0 < maxRawScore fr then rf.score / maxRawScore fr else 0) * faiss_weight +
      (if 0 < maxRawScore br then rb.score / maxRawScore br else 0) * bm25_weight = 1
  rw [if_pos hposf, if_pos hposb, hmaxf, hmaxb,
    div_self (ne_of_gt hposf), div_self (ne_of_gt hposb)]
  norm_num [faiss_weight, bm25_weight]

/-- C6 witness: the weight law applied to two concrete one-element result
sets sharing the content "both doc". -/
theorem combine_results_weight_law_witness :
    0 < maxRawScore [recF] ∧ 0 < maxRawScore [recB6] ∧
    recB6.content = recF.content ∧
    ∃ r ∈ combineUnsorted [recF] [recB6], r.content = recF.content ∧
      r.combined_score = 1 := by
  refine ⟨by norm_num [maxRawScore, recF], by norm_num [maxRawScore, recB6],
    rfl, ?_⟩
  exact combine_results_weight_law [recF] [recB6] recF recB6
    (by decide) (by decide) (List.mem_singleton.mpr rfl)
    (List.mem_singleton.mpr rfl) rfl rfl
    (by norm_num [maxRawScore, recF]) rfl (by norm_num [maxRawScore, recB6])

/-! ## C10: the rerank only rearranges (fails for duplicated sources) -/

/-- C10 counterexample: with the duplicated required-source list
`["alpha", "alpha"]`, a single input result is emitted twice — the claim's
"each input element appears at most once in the output" fails as stated for
arbitrary required-source lists. -/
theorem balance_by_sources_duplicates_counterexample :
    balance_by_sources [recIn] ["alpha", "alpha"] 2 = [recIn, recIn] ∧
    List.count recIn (balance_by_sources [recIn] ["alpha", "alpha"] 2) = 2 ∧
    List.count recIn [recIn] = 1 :=
  ⟨by decide, by decide, by decide⟩

/-- C10 (amended): for every input list, every `k`, and every required-source
list WITHOUT duplicate identifiers, the balancing rerank output is a
sub-permutation of its input — it draws only from the input and uses each
input occurrence at most once (a duplicated source identifier makes its
bucket's quota prefix be emitted once per duplicate, which is the only
failure mode). -/
theorem balance_by_sources_no_fabrication (results : List SearchResult)
    (rs : List String) (hnd : rs.Nodup) (k : Nat) :
    List.Subperm (balance_by_sources results rs k) results :=
  balance_subperm_aux results rs hnd k

/-- C10 witness: the amended statement applied to a concrete one-element
input. -/
theorem balance_by_sources_no_fabrication_witness :
    (["alpha"] : List String).Nodup ∧
    List.Subperm (balance_by_sources [recIn] ["alpha"] 1) [recIn] :=
  ⟨by decide, balance_by_sources_no_fabrication [recIn] ["alpha"] (by decide) 1⟩

/-! ## C5: dedup invariant and merge-by-content -/

/-- C5 (amended): when the optional required-source list contains no duplicate
identifiers (in particular when it is absent), no two entries of the
`hybrid_search` result share a content string; and whenever a content occurs
in both (content-duplicate-free) sub-search result sets, the fused list
contains an entry for it whose `combined_score` is the sum of the two
weighted normalized contributions.  (A duplicated required-source identifier
makes the balancing rerank emit the same entry twice, which is the only
failure mode of the dedup claim.) -/
theorem hybrid_search_dedup_and_merge (e : HybridSearchEngine) (q : String)
    (k : Nat) (rs : Option (List String)) (hnd : (rs.getD []).Nodup) :
    ((hybrid_search e q k rs).map SearchResult.content).Nodup ∧
    (∀ rf rb : SearchResult,
      ((faiss_search e q (k * 2)).map SearchResult.content).Nodup →
      ((bm25_search e q (k * 2)).map SearchResult.content).Nodup →
      rf ∈ normalizeResults (faiss_search e q (k * 2)) →
      rb ∈ normalizeResults (bm25_search e q (k * 2)) →
      rb.content = rf.content →
      ∃ r ∈ combineUnsorted (faiss_search e q (k * 2)) (bm25_search e q (k * 2)),
        r.content = rf.content ∧
        r.combined_score = rf.normalized_score * faiss_weight +
          rb.normalized_score * bm25_weight) := by
  constructor
  · unfold hybrid_search
    split
    · simp
    · cases rs with
      | none =>
        exact (combine_results_nodup _ _ _).sublist ((List.take_sublist _ _).map _)
      | some l =>
        simp only
        split
        · exact (combine_results_nodup _ _ _).sublist ((List.take_sublist _ _).map _)
        · exact nodup_contents_of_subperm
            (balance_subperm_aux _ l (by simpa using hnd) k)
            (combine_results_nodup _ _ _)
  · intro rf rb hf hb hrf hrb hcc
    exact combineUnsorted_merge_sum _ _ rf rb hf hb hrf hrb hcc

/-- C5 counterexample: with the duplicated required-source list
`["alpha", "alpha"]`, `hybrid_search` returns two entries with the identical
content "alpha y" — the dedup invariant fails as the claim states it. -/
theorem hybrid_search_dedup_counterexample :
    (hybrid_search engineDup "q" 2 (some ["alpha", "alpha"])).map
      SearchResult.content = ["alpha y", "alpha y"] ∧
    ¬ ((hybrid_search engineDup "q" 2 (some ["alpha", "alpha"])).map
      SearchResult.content).Nodup := by
  have h1 : hybrid_search engineDup "q" 2 (some ["alpha", "alpha"]) =
      balance_by_sources (combine_results (faiss_search engineDup "q" (2 * 2))
        (bm25_search engineDup "q" (2 * 2)) (2 * 2)) ["alpha", "alpha"] 2 := rfl
  have h2 : combine_results (faiss_search engineDup "q" (2 * 2))
      (bm25_search engineDup "q" (2 * 2)) (2 * 2) = [recDup] := by
    norm_num [engineDup, exFaissOne, exBm25Zero1, faiss_search, bm25_search,
      argsortDesc, mkBm25Result, combine_results, combineUnsorted, normalizeResults,
      maxRawScore, addFaissResult, addBm25Result, boostFirst, sortByCombinedDesc,
      faiss_weight, bm25_weight, List.enum, List.enumFrom, List.getD,
      List.filterMap_cons, recDup]
  have h3 : balance_by_sources [recDup] ["alpha", "alpha"] 2 = [recDup, recDup] := by
    have hcat : categorize ["alpha", "alpha"] recDup = some "alpha" := by decide
    simp [balance_by_sources, bucketFor, otherResults, List.filter_cons, hcat]
  rw [h1, h2, h3]
  exact ⟨by decide, by decide⟩

end SearchPy

namespace SearchPy

/-- C5 witness: both parts of the dedup/merge statement applied at concrete
engines. -/
theorem hybrid_search_dedup_and_merge_witness :
    ((some ["alpha", "beta"] : Option (List String)).getD []).Nodup ∧
    ((hybrid_search engineAB "q" 2 (some ["alpha", "beta"])).map
      SearchResult.content).Nodup ∧
    (∃ r ∈ combineUnsorted (faiss_search engineBoth "q" (1 * 2))
        (bm25_search engineBoth "q" (1 * 2)),
      r.content = "both doc" ∧
      r.combined_score = 1 * faiss_weight + 1 * bm25_weight) := by
  refine ⟨by decide,
    (hybrid_search_dedup_and_merge engineAB "q" 2 (some ["alpha", "beta"])
      (by decide)).1, ?_⟩
  have hfs : faiss_search engineBoth "q" (1 * 2) = [recF] := by
    norm_num [faiss_search, engineBoth, exFaissBoth, List.enum, List.enumFrom,
      List.filterMap_cons, List.getD, recF]
  have hbs : bm25_search engineBoth "q" (1 * 2) = [recB6] := by
    norm_num [bm25_search, engineBoth, exBm25Both, argsortDesc, mkBm25Result,
      List.enum, List.enumFrom, List.filterMap_cons, List.getD, recB6]
  have hnf : normalizeResults (faiss_search engineBoth "q" (1 * 2)) =
      [{ recF with normalized_score := 1 }] := by
    rw [hfs]
    norm_num [normalizeResults, maxRawScore, recF]
  have hnb : normalizeResults (bm25_search engineBoth "q" (1 * 2)) =
      [{ recB6 with normalized_score := 1 }] := by
    rw [hbs]
    norm_num [normalizeResults, maxRawScore, recB6]
  obtain ⟨r, hrm, hrc, hrs⟩ :=
    (hybrid_search_dedup_and_merge engineBoth "q" 1 none (by decide)).2
      { recF with normalized_score := 1 } { recB6 with normalized_score := 1 }
      (by rw [hfs]; decide) (by rw [hbs]; decide)
      (by rw [hnf]; exact List.mem_singleton.mpr rfl)
      (by rw [hnb]; exact List.mem_singleton.mpr rfl) rfl
  exact ⟨r, hrm, by simpa [recF] using hrc, by simpa using hrs⟩

/-! ## C2 counterexample: the balancing path breaks the ordering -/

theorem engineAB_combined :
    combine_results (faiss_search engineAB "q" (2 * 2))
      (bm25_search engineAB "q" (2 * 2)) (2 * 2) = [recBeta, recAlpha] := by
  norm_num [engineAB, exFaissIndex, exBm25Zero, faiss_search, bm25_search,
    argsortDesc, mkBm25Result, combine_results, combineUnsorted, normalizeResults,
    maxRawScore, addFaissResult, addBm25Result, boostFirst, sortByCombinedDesc,
    faiss_weight, bm25_weight, List.enum, List.enumFrom, List.getD,
    List.filterMap_cons, recBeta, recAlpha]

theorem engineAB_balanced :
    balance_by_sources [recBeta, recAlpha] ["alpha", "beta"] 2 =
      [recAlpha, recBeta] := by
  have hcb : categorize ["alpha", "beta"] recBeta = some "beta" := by decide
  have hca : categorize ["alpha", "beta"] recAlpha = some "alpha" := by decide
  simp [balance_by_sources, bucketFor, otherResults, List.filter_cons, hcb, hca]

/-- C2 counterexample: on the balancing path the "alpha" result (score 3/10)
is emitted before the "beta" result (score 3/5), so the returned list is not
sorted non-increasing by `combined_score`. -/
theorem hybrid_search_balancing_breaks_order :
    ¬ (hybrid_search engineAB "q" 2 (some ["alpha", "beta"])).Pairwise
      (fun a b => b.combined_score ≤ a.combined_score) := by
  have h1 : hybrid_search engineAB "q" 2 (some ["alpha", "beta"]) =
      balance_by_sources (combine_results (faiss_search engineAB "q" (2 * 2))
        (bm25_search engineAB "q" (2 * 2)) (2 * 2)) ["alpha", "beta"] 2 := rfl
  rw [h1, engineAB_combined, engineAB_balanced]
  intro h
  have h4 := List.rel_of_pairwise_cons h (List.mem_cons_self _ _)
  norm_num [recAlpha, recBeta] at h4

/-! ## C4: the two-source balancing guarantee -/

theorem categorize_of_mem_bucket {rs : List String}
    {results : List SearchResult} {s : String} {r : SearchResult}
    (h : r ∈ bucketFor rs results s) : categorize rs r = some s := by
  unfold bucketFor at h
  rw [List.mem_filter] at h
  exact of_decide_eq_true h.2

theorem mem_bucket_of {rs : List String} {results : List SearchResult}
    {s : String} {r : SearchResult} (hr : r ∈ results)
    (hc : categorize rs r = some s) : r ∈ bucketFor rs results s := by
  unfold bucketFor
  exact List.mem_filter.mpr ⟨hr, by rw [hc]; simp⟩

theorem self_mem_take {x : SearchResult} (l : List SearchResult) (k : Nat)
    (hk : 1 ≤ k) : x ∈ (x :: l).take k := by
  rw [show k = (k - 1) + 1 from by omega, List.take_succ_cons]
  exact List.mem_cons_self _ _

theorem mem_take_append {b : SearchResult} (l₁ l₂ : List SearchResult)
    (k : Nat) (hb : b ∈ l₂.take (k - l₁.length)) : b ∈ (l₁ ++ l₂).take k := by
  rw [List.take_append_eq_append_take]
  exact List.mem_append_right _ hb

theorem balance_two_sources_both_represented (results : List SearchResult)
    (A B : String) (k : Nat) (hk : 2 ≤ k)
    (hA : bucketFor [A, B] results A ≠ [])
    (hB : bucketFor [A, B] results B ≠ []) :
    (∃ r ∈ balance_by_sources results [A, B] k,
      categorize [A, B] r = some A) ∧
    (∃ r ∈ balance_by_sources results [A, B] k,
      categorize [A, B] r = some B) := by
  obtain ⟨a0, ta, hAeq⟩ := List.exists_cons_of_ne_nil hA
  obtain ⟨b0, tb, hBeq⟩ := List.exists_cons_of_ne_nil hB
  have hcatA : categorize [A, B] a0 = some A :=
    categorize_of_mem_bucket (by rw [hAeq]; exact List.mem_cons_self _ _)
  have hcatB : categorize [A, B] b0 = some B :=
    categorize_of_mem_bucket (by rw [hBeq]; exact List.mem_cons_self _ _)
  have hqk : max 1 (k / ([A, B] : List String).length) < k := by
    show max 1 (k / 2) < k
    apply max_lt
    · omega
    · exact Nat.div_lt_self (by omega) (by omega)
  obtain ⟨q', hq'⟩ : ∃ q', max 1 (k / ([A, B] : List String).length) = q' + 1 := by
    refine ⟨max 1 (k / ([A, B] : List String).length) - 1, ?_⟩
    show max 1 (k / 2) = max 1 (k / 2) - 1 + 1
    omega
  have hq'k : q' + 1 < k := hq' ▸ hqk
  have hta : (ta.take q').length ≤ q' := List.length_take_le _ _
  simp only [balance_by_sources, List.flatMap_cons, List.flatMap_nil,
    List.append_nil, hq', hAeq, hBeq, List.take_succ_cons]
  constructor
  · refine ⟨a0, ?_, hcatA⟩
    split
    · exact self_mem_take _ _ (by omega)
    · exact self_mem_take _ _ (by omega)
  · refine ⟨b0, ?_, hcatB⟩
    split
    · rw [List.append_assoc]
      refine mem_take_append _ _ _ ?_
      refine self_mem_take _ _ ?_
      simp only [List.length_cons]
      omega
    · refine mem_take_append _ _ _ ?_
      refine self_mem_take _ _ ?_
      simp only [List.length_cons]
      omega

/-- C4: with exactly two required sources `[A, B]`, both loaded indexes, at
least one fused candidate categorized under each source, and `k ≥ 2`, the
`hybrid_search` output contains at least one result categorized as `A` and at
least one categorized as `B`. -/
theorem hybrid_search_balancing_guarantee (e : HybridSearchEngine)
    (q A B : String) (k : Nat)
    (hfi : e.faiss_index.isSome = true) (hbi : e.bm25_index.isSome = true)
    (hk : 2 ≤ k)
    (hA : ∃ r ∈ combine_results (faiss_search e q (k * 2))
      (bm25_search e q (k * 2)) (k * 2), categorize [A, B] r = some A)
    (hB : ∃ r ∈ combine_results (faiss_search e q (k * 2))
      (bm25_search e q (k * 2)) (k * 2), categorize [A, B] r = some B) :
    (∃ r ∈ hybrid_search e q k (some [A, B]),
      categorize [A, B] r = some A) ∧
    (∃ r ∈ hybrid_search e q k (some [A, B]),
      categorize [A, B] r = some B) := by
  have hred : hybrid_search e q k (some [A, B]) =
      balance_by_sources (combine_results (faiss_search e q (k * 2))
        (bm25_search e q (k * 2)) (k * 2)) [A, B] k := by
    obtain ⟨fi, hfi'⟩ := Option.isSome_iff_exists.mp hfi
    obtain ⟨bi, hbi'⟩ := Option.isSome_iff_exists.mp hbi
    unfold hybrid_search
    rw [hfi', hbi']
    rfl
  rw [hred]
  apply balance_two_sources_both_represented _ A B k hk
  · obtain ⟨r, hr, hc⟩ := hA
    exact List.ne_nil_of_mem (mem_bucket_of hr hc)
  · obtain ⟨r, hr, hc⟩ := hB
    exact List.ne_nil_of_mem (mem_bucket_of hr hc)

/-- C4 witness: the balancing guarantee at a concrete engine with one "alpha"
and one "beta" candidate and `k = 2`. -/
theorem hybrid_search_balancing_guarantee_witness :
    2 ≤ 2 ∧
    (∃ r ∈ hybrid_search engineAB "q" 2 (some ["alpha", "beta"]),
      categorize ["alpha", "beta"] r = some "alpha") ∧
    (∃ r ∈ hybrid_search engineAB "q" 2 (some ["alpha", "beta"]),
      categorize ["alpha", "beta"] r = some "beta") := by
  refine ⟨le_refl 2, ?_⟩
  have hA : ∃ r ∈ combine_results (faiss_search engineAB "q" (2 * 2))
      (bm25_search engineAB "q" (2 * 2)) (2 * 2),
      categorize ["alpha", "beta"] r = some "alpha" := by
    rw [engineAB_combined]
    exact ⟨recAlpha, by simp, by decide⟩
  have hB : ∃ r ∈ combine_results (faiss_search engineAB "q" (2 * 2))
      (bm25_search engineAB "q" (2 * 2)) (2 * 2),
      categorize ["alpha", "beta"] r = some "beta" := by
    rw [engineAB_combined]
    exact ⟨recBeta, by simp, by decide⟩
  exact hybrid_search_balancing_guarantee engineAB "q" "alpha" "beta" 2
    rfl rfl (le_refl 2) hA hB

/-! ## C7: the lexical tie-break -/

/-- C7 counterexample: two chunks with the same BM25 score 1 — the lexical
search ranks the larger-index chunk "chunk b" (index 1) before "chunk a"
(index 0), refuting the claimed smaller-index-first tie-break. -/
theorem bm25_tie_order_counterexample :
    exBm25Ties.get_scores (pyTokenize "q") = [1, 1] ∧
    engineTies.bm25_chunks = ["chunk a", "chunk b"] ∧
    (bm25_search engineTies "q" 2).map SearchResult.content
      = ["chunk b", "chunk a"] :=
  ⟨rfl, rfl, by decide⟩

/-- C7 (amended): equal-score ties are broken toward the LARGER original
chunk index: in the index order `np.argsort(scores)[::-1]` that
`_bm25_search` walks (argsort modeled as a stable ascending sort), the
larger index `j` of an equal-score pair `i < j` appears before `i`. -/
theorem bm25_tie_larger_index_first (scores : List ℚ) (i j : Nat)
    (hij : i < j) (hj : j < scores.length)
    (heq : scores.getD i 0 = scores.getD j 0) :
    List.Sublist [j, i] (argsortDesc scores) := by
  unfold argsortDesc
  have h1 : List.Sublist [i, j] (List.range scores.length) := by
    have h0 : List.Sublist [i, j] (List.range (j + 1)) := by
      rw [List.range_succ]
      exact List.Sublist.append
        (List.singleton_sublist.mpr (List.mem_range.mpr hij))
        (List.Sublist.refl _)
    exact h0.trans (List.range_sublist.mpr hj)
  have h2 := List.pair_sublist_insertionSort
    (r := fun a b => scores.getD a 0 ≤ scores.getD b 0) (le_of_eq heq) h1
  simpa using h2.reverse

/-- C7 witness: the amended tie-break at the concrete score list `[1, 1]`. -/
theorem bm25_tie_larger_index_first_witness :
    (0 : Nat) < 1 ∧ 1 < ([1, 1] : List ℚ).length ∧
    ([1, 1] : List ℚ).getD 0 0 = ([1, 1] : List ℚ).getD 1 0 ∧
    List.Sublist [1, 0] (argsortDesc [1, 1]) := by
  refine ⟨by decide, by decide, by decide, ?_⟩
  exact bm25_tie_larger_index_first [1, 1] 0 1 (by decide) (by decide) (by decide)

end SearchPy

namespace SearchPy

/-- C8 witness: positivity applied to a concrete returned result, and the
zero-score exclusion applied to an index whose score is 0. -/
theorem bm25_search_positive_witness :
    (mkBm25Result engineTies (exBm25Ties.get_scores (pyTokenize "q")) 0 1
        ∈ bm25_search engineTies "q" 2 ∧
      0 < (mkBm25Result engineTies
        (exBm25Ties.get_scores (pyTokenize "q")) 0 1).score) ∧
    (exBm25Ties.get_scores (pyTokenize "q")).getD 7 0 = 0 ∧
    mkBm25Result engineTies (exBm25Ties.get_scores (pyTokenize "q")) 5 7
      ∉ bm25_search engineTies "q" 2 := by
  have hmem : mkBm25Result engineTies (exBm25Ties.get_scores (pyTokenize "q")) 0 1
      ∈ bm25_search engineTies "q" 2 := by decide
  refine ⟨⟨hmem, (bm25_search_positive engineTies "q" 2).1 _ hmem⟩, by decide, ?_⟩
  exact (bm25_search_positive engineTies "q" 2).2 exBm25Ties rfl 5 7 (by decide)

end SearchPy
